import Mathlib

/-!
Verification of `redis-util-functions.js` (class `RedisUtilFunctions`).

The JavaScript source is shallowly embedded: keys are `String`s (handled as
their `List Char` data where character-level reasoning is needed), JavaScript
values flowing through the library are small inductive types, the Redis
connection and its replies are oracles passed as explicit function arguments,
and the `async` loops are written with an explicit fuel argument (`none`
standing for a computation that has not terminated within the given fuel).
-/

set_option autoImplicit false

namespace RedisUtil

/-- Embeds `_rpfx` at the `List Char` level.  Source:
```
_rpfx(hkey) {
    let _slot_pfx = ''
    if (hkey.substring(0, 1) === '{') { _slot_pfx = '{'; hkey = hkey.substring(1) }
    return _slot_pfx +
      (hkey.indexOf(this.redisHprefix) !== 0 ? this.redisHprefix : '') + hkey
}
```
`hkey.substring(0, 1) === '{'` is `hkey.take 1 = ['{']`, `hkey.substring(1)`
is `hkey.drop 1`, and `hkey.indexOf(pfx) !== 0` is exactly "`pfx` is not a
prefix of `hkey`" (`indexOf` returns `0` iff the needle occurs at position 0,
and `''.indexOf` is always `0`, matching `List.isPrefixOf` on `[]`). -/
def rpfxData (pfx hkey : List Char) : List Char :=
  if hkey.take 1 = ['{'] then
    '{' :: ((if pfx.isPrefixOf (hkey.drop 1) then [] else pfx) ++ hkey.drop 1)
  else
    (if pfx.isPrefixOf hkey then [] else pfx) ++ hkey

/-- `_rpfx` on `String`s, with the configured prefix (`this.redisHprefix`)
as an explicit first argument. -/
def rpfx (pfx hkey : String) : String :=
  String.mk (rpfxData pfx.data hkey.data)

/-- Embeds `_rjpath`.  Source:
```
_rjpath(path) {
    if (!path || path === '$') return '$'
    if (path.substr(0, 2) !== '$.') return '$.' + path
    return path
}
```
`!path` for a string argument means `path === ''`;
`path.substr(0, 2) !== '$.'` is "`"$."` is not a prefix of `path`". -/
def rjpath (path : String) : String :=
  if path = "" ∨ path = "$" then "$"
  else if ¬ ("$.".data.isPrefixOf path.data) then "$." ++ path
  else path

theorem strData_append (s t : String) : (s ++ t).data = s.data ++ t.data := by
  cases s; cases t; rfl

theorem strEq_of_data (s t : String) (h : s.data = t.data) : s = t := by
  cases s; cases t; cases h; rfl

/-- If the configured prefix does not itself begin with the cluster-tag
delimiter `'{'`, `_rpfx` is idempotent (list-level core lemma). -/
theorem rpfxData_idem (p h : List Char) (hp : p.take 1 ≠ ['{']) :
    rpfxData p (rpfxData p h) = rpfxData p h := by
  have hpref : ∀ t : List Char,
      p.isPrefixOf ((if p.isPrefixOf t then [] else p) ++ t) = true := by
    intro t
    by_cases hq : p.isPrefixOf t = true
    · simp [hq]
    · rw [if_neg hq]
      exact List.isPrefixOf_iff_prefix.mpr (List.prefix_append p t)
  by_cases hb : h.take 1 = ['{']
  · -- tagged key: the inner application produces '{' :: (q ++ h.drop 1)
    have hin : rpfxData p h =
        '{' :: ((if p.isPrefixOf (h.drop 1) then [] else p) ++ h.drop 1) := by
      rw [rpfxData, if_pos hb]
    rw [hin, rpfxData, if_pos (by simp)]
    simp only [List.drop_one, List.tail_cons]
    rw [if_pos (hpref h.tail), List.nil_append]
  · -- untagged key
    by_cases hq : p.isPrefixOf h = true
    · have hin : rpfxData p h = h := by
        rw [rpfxData, if_neg hb, if_pos hq, List.nil_append]
      rw [hin]
      exact hin
    · have hpnil : p ≠ [] := by
        intro hnil
        rw [hnil] at hq
        simp [List.isPrefixOf] at hq
      have hin : rpfxData p h = p ++ h := by
        rw [rpfxData, if_neg hb, if_neg hq]
      have hhead : (p ++ h).take 1 ≠ ['{'] := by
        cases p with
        | nil => exact absurd rfl hpnil
        | cons c cs =>
          simp only [List.cons_append, List.take_succ_cons, List.take_zero]
          simpa using hp
      rw [hin, rpfxData, if_neg hhead,
        if_pos (List.isPrefixOf_iff_prefix.mpr (List.prefix_append p h)),
        List.nil_append]

/-- C4 (counterexample): as stated, idempotence fails for a configured
prefix that itself begins with `'{'`.  With prefix `"{"` and key `"a"`:
the first application yields `"{a"`; the second sees the leading brace,
strips it, finds that `"a"` does not start with `"{"`, and produces
`"{{a"`. -/
theorem rpfx_not_idempotent_brace_prefix :
    rpfx "\x7b" (rpfx "\x7b" "a") ≠ rpfx "\x7b" "a" := by decide

/-- C4 (amended): for every key `k`, `_rpfx` is idempotent — including keys
already carrying the configured prefix or a cluster tag — provided the
configured prefix does not itself begin with the tag delimiter `'{'`. -/
theorem rpfx_idempotent_of_no_brace (pfx k : String)
    (hp : pfx.data.take 1 ≠ ['{']) :
    rpfx pfx (rpfx pfx k) = rpfx pfx k := by
  apply strEq_of_data
  show (rpfxData pfx.data (rpfxData pfx.data k.data)) = _
  exact rpfxData_idem pfx.data k.data hp

/-- C4 witness: concrete instance of the amended idempotence theorem with a
realistic prefix, on a key that is tagged and not yet prefixed. -/
theorem rpfx_idempotent_of_no_brace_witness :
    ("p:".data.take 1 ≠ ['{']) ∧
      rpfx "p:" (rpfx "p:" "\x7btag\x7dfoo") = rpfx "p:" "\x7btag\x7dfoo" :=
  ⟨by decide, rpfx_idempotent_of_no_brace "p:" "\x7btag\x7dfoo" (by decide)⟩

/-- C1 (counterexample): for a key beginning with a cluster tag, the tag's
contents are NOT preserved verbatim: with prefix `"p:"`, the key
`"{tag}foo"` is namespaced to `"{p:tag}foo"` — the prefix is inserted
inside the tag, so the result does not begin with the original tag
`"{tag}"` followed by a namespaced remainder. -/
theorem rpfx_tag_contents_not_preserved :
    rpfx "p:" "\x7btag\x7dfoo" = "\x7bp:tag\x7dfoo" ∧
      ("\x7btag\x7d".data.isPrefixOf (rpfx "p:" "\x7btag\x7dfoo").data) = false := by
  decide

/-- C1 (amended): for every key `k` beginning with the cluster-tag delimiter
`'{'`, `_rpfx` reattaches the single delimiter character unprefixed,
followed by the remainder of the key after the delimiter with the
configured prefix prepended unless the remainder already begins with it —
the prefix check and the prefixing apply to the tag's contents together
with the rest of the key, so the contents are not preserved verbatim
(first conjunct, for every such key).  When the remainder does not itself
begin with another `'{'`, this is exactly the delimiter followed by the
namespaced remainder, `rpfx pfx k = "{" ++ rpfx pfx rest` (second
conjunct). -/
theorem rpfx_tag_delimiter_reattached (pfx k : String) (rest : List Char)
    (h : k.data = '{' :: rest) :
    rpfx pfx k = String.mk ['{'] ++
        (if pfx.data.isPrefixOf rest then String.mk rest
         else pfx ++ String.mk rest)
    ∧ (rest.take 1 ≠ ['{'] →
        rpfx pfx k = String.mk ['{'] ++ rpfx pfx (String.mk rest)) := by
  constructor
  · apply strEq_of_data
    by_cases hq : pfx.data.isPrefixOf rest = true
    · rw [if_pos hq, strData_append]
      show rpfxData pfx.data k.data = _
      rw [h, rpfxData, if_pos (by simp)]
      simp only [List.drop_succ_cons, List.drop_zero]
      rw [if_pos hq]
      simp
    · rw [if_neg hq, strData_append, strData_append]
      show rpfxData pfx.data k.data = _
      rw [h, rpfxData, if_pos (by simp)]
      simp only [List.drop_succ_cons, List.drop_zero]
      rw [if_neg hq]
      simp
  · intro h2
    apply strEq_of_data
    rw [strData_append]
    show rpfxData pfx.data k.data = ['{'] ++ rpfxData pfx.data rest
    rw [h, rpfxData, if_pos (by simp)]
    simp only [List.drop_succ_cons, List.drop_zero]
    rw [rpfxData, if_neg h2]
    simp

/-- C1 witness: concrete instances of the amended tag-reattachment
theorem — the plain tagged key `"{tag}foo"` (second conjunct), and the
double-brace key `"{{a"`, whose remainder starts with another delimiter
and where the prefix is inserted between the two braces (first
conjunct). -/
theorem rpfx_tag_delimiter_reattached_witness :
    ("\x7btag\x7dfoo".data = '{' :: "tag\x7dfoo".data) ∧
      rpfx "p:" "\x7btag\x7dfoo" =
        String.mk ['{'] ++ rpfx "p:" (String.mk "tag\x7dfoo".data) ∧
      rpfx "p:" "\x7b\x7ba" =
        String.mk ['{'] ++ ("p:" ++ String.mk "\x7ba".data) :=
  ⟨by decide,
   (rpfx_tag_delimiter_reattached "p:" "\x7btag\x7dfoo" "tag\x7dfoo".data
     (by decide)).2 (by decide),
   (rpfx_tag_delimiter_reattached "p:" "\x7b\x7ba" "\x7ba".data
     (by decide)).1⟩

/-- JavaScript values produced by `JSON.parse` or returned by the document
store, with `null` as an explicit constructor (JSON `null` and the JS
`null` reply for a missing key coincide in JavaScript). -/
inductive JsonVal where
  | null
  | bool (b : Bool)
  | num (n : Int)
  | str (s : String)
  | arr (elems : List JsonVal)
  | obj (fields : List (String × JsonVal))

/-- `v !== null` test on a JavaScript value. -/
def JsonVal.isNull : JsonVal → Bool
  | JsonVal.null => true
  | _ => false

/-- A trailing argument of `rjget` (`rest_args`): either a string (an
option token, or any non-function value — which the fallback check treats
alike) or a fallback-producer function.  A producer receives the prefixed
key and the normalized path; it may mutate the underlying store (state
type `σ`) and returns a value. -/
inductive RArg (σ : Type) where
  | str (s : String)
  | func (f : String → String → σ → σ × JsonVal)

/-- One step of the option scan of `rjget`: `rest_args.indexOf(_opt)`
followed by `rest_args.splice(_indx, 1)` — find the first occurrence of
the token (a `===` comparison, which a function argument never satisfies)
and remove it, reporting whether it was found. -/
def spliceTok {σ : Type} (tok : String) : List (RArg σ) → Bool × List (RArg σ)
  | [] => (false, [])
  | a :: rest =>
    match a with
    | RArg.str s =>
      if s = tok then (true, rest)
      else
        let r := spliceTok tok rest
        (r.1, RArg.str s :: r.2)
    | RArg.func f =>
      let r := spliceTok tok rest
      (r.1, RArg.func f :: r.2)

/-- The recognized option tokens of `rjget`. -/
structure JOpts where
  rerun : Bool
  keep_array : Bool
  empty_array_null : Bool

/-- The option scan of `rjget`: `Object.keys(opts)` enumerates
`rerun`, `keep_array`, `empty_array_null` in insertion order, and each
found token is spliced out of `rest_args`. -/
def spliceOpts {σ : Type} (args : List (RArg σ)) : JOpts × List (RArg σ) :=
  let r1 := spliceTok "rerun" args
  let r2 := spliceTok "keep_array" r1.2
  let r3 := spliceTok "empty_array_null" r2.2
  ({ rerun := r1.1, keep_array := r2.1, empty_array_null := r3.1 }, r3.2)

theorem spliceTok_length_le {σ : Type} (tok : String) (args : List (RArg σ)) :
    (spliceTok tok args).2.length ≤ args.length := by
  induction args with
  | nil => simp [spliceTok]
  | cons a rest ih =>
    cases a with
    | str s =>
      by_cases hs : s = tok
      · simp [spliceTok, hs]
      · simp only [spliceTok, if_neg hs, List.length_cons]
        omega
    | func f =>
      simp only [spliceTok, List.length_cons]
      omega

theorem spliceOpts_length_le {σ : Type} (args : List (RArg σ)) :
    (spliceOpts args).2.length ≤ args.length := by
  have h1 := spliceTok_length_le (σ := σ) "rerun" args
  have h2 := spliceTok_length_le (σ := σ) "keep_array" (spliceTok "rerun" args).2
  have h3 := spliceTok_length_le (σ := σ) "empty_array_null"
    (spliceTok "keep_array" (spliceTok "rerun" args).2).2
  simp only [spliceOpts]
  omega

/-- The result-shaping portion of `rjget`, between the raw `JSON.GET`
reply and the fallback check.  `parse` models `JSON.parse` as invoked
through `parseJson(res, res)` when the reply is a string; document-store
replies are serializer output, so the parse is modelled as total (the
decode-failure policy is outside the embedded claims).  Source:
```
if (res !== null) {
    if (typeof res === 'string') res = parseJson(res, res)
    if (opts.empty_array_null && Array.isArray(res) && !res.length) res = null
    if (res !== null) {
        if (!opts.keep_array && Array.isArray(res) && res.length === 1) res = res[0]
        if (callback && typeof callback === 'function') {
            res = callback(res)
            if (res instanceof Promise) res = await res
        }
    }
}
``` -/
def rjresolve (parse : String → JsonVal) (keep_array empty_array_null : Bool)
    (callback : Option (JsonVal → JsonVal)) (raw : JsonVal) : JsonVal :=
  if raw.isNull then raw
  else
    let res := match raw with
      | JsonVal.str s => parse s
      | v => v
    let res := if empty_array_null && (match res with
        | JsonVal.arr [] => true
        | _ => false) then JsonVal.null else res
    if res.isNull then res
    else
      let res := if keep_array = false then
          (match res with
           | JsonVal.arr [x] => x
           | v => v)
        else res
      match callback with
      | some cb => cb res
      | none => res

/-- Embeds `rjget(hkey, path, callback, ...rest_args)`.  The document
store is the state `σ`; `oracle store hkey path` models the raw
`await this._rraw('JSON.GET', hkey, path)` reply (`null` or a string for a
real store; any other value is routed as the code would).  The function
normalizes the path, prefixes the key, scans the option tokens out of
`rest_args`, shapes the result (`rjresolve`), then runs the fallback
protocol:
```
if (res !== null || !rest_args.length) return Promise.resolve(res)
let ret
const _type = typeof rest_args[0]
if (_type === 'function') { ret = rest_args[0](hkey, path) }
else { return Promise.resolve(null) }
if (opts.rerun) { await ret; return this.rjget(hkey, path, callback) }
else { return ret }
```
The returned pair is (store after the call, final result). -/
def rjget {σ : Type} (oracle : σ → String → String → JsonVal)
    (parse : String → JsonVal) (pfx : String) (store : σ)
    (hkey path : String) (callback : Option (JsonVal → JsonVal))
    (rest_args : List (RArg σ)) : σ × JsonVal :=
  let path' := rjpath path
  let hkey' := rpfx pfx hkey
  let res := rjresolve parse (spliceOpts rest_args).1.keep_array
    (spliceOpts rest_args).1.empty_array_null callback (oracle store hkey' path')
  if hnul : res.isNull = false ∨ (spliceOpts rest_args).2.isEmpty = true then
    (store, res)
  else
    match (spliceOpts rest_args).2 with
    | [] => (store, res)
    | RArg.func f :: _ =>
      let ret := f hkey' path' store
      if (spliceOpts rest_args).1.rerun then
        rjget oracle parse pfx ret.1 hkey' path' callback []
      else ret
    | RArg.str _ :: _ => (store, JsonVal.null)
termination_by rest_args.length
decreasing_by
  have hle := spliceOpts_length_le (σ := σ) rest_args
  have hne : (spliceOpts rest_args).2 ≠ [] := by
    intro he
    exact hnul (Or.inr (by simp [he]))
  have hpos : 0 < (spliceOpts rest_args).2.length := List.length_pos.mpr hne
  simp only [List.length_nil]
  omega

/-- C5: the fallback protocol of `rjget`.  If the shaped result is `null`
and the first remaining (non-option) trailing argument is a function, it
is invoked with the prefixed key and the normalized path; without `rerun`
its result is returned directly as the final answer; with `rerun` its
result is awaited, discarded, and the whole get is re-issued exactly once:
the re-issued call carries no trailing arguments, and (third conjunct) a
call with no trailing arguments always returns its shaped result, so no
second fallback invocation or rerun can occur. -/
theorem rjget_fallback_protocol {σ : Type}
    (oracle : σ → String → String → JsonVal) (parse : String → JsonVal)
    (pfx : String) (store : σ) (hkey path : String)
    (callback : Option (JsonVal → JsonVal)) (rest_args : List (RArg σ))
    (opts : JOpts) (f : String → String → σ → σ × JsonVal)
    (tail : List (RArg σ))
    (hs : spliceOpts rest_args = (opts, RArg.func f :: tail))
    (hnull : rjresolve parse opts.keep_array opts.empty_array_null callback
      (oracle store (rpfx pfx hkey) (rjpath path)) = JsonVal.null) :
    (opts.rerun = false →
      rjget oracle parse pfx store hkey path callback rest_args
        = f (rpfx pfx hkey) (rjpath path) store)
    ∧ (opts.rerun = true →
      rjget oracle parse pfx store hkey path callback rest_args
        = rjget oracle parse pfx (f (rpfx pfx hkey) (rjpath path) store).1
            (rpfx pfx hkey) (rjpath path) callback [])
    ∧ (∀ store₂ : σ, rjget oracle parse pfx store₂ hkey path callback []
        = (store₂, rjresolve parse false false callback
            (oracle store₂ (rpfx pfx hkey) (rjpath path)))) := by
  have hempty : ∀ store₂ : σ,
      rjget oracle parse pfx store₂ hkey path callback []
        = (store₂, rjresolve parse false false callback
            (oracle store₂ (rpfx pfx hkey) (rjpath path))) := by
    intro store₂
    rw [rjget.eq_def]
    simp [spliceOpts, spliceTok]
  refine ⟨?_, ?_, hempty⟩
  · intro hr
    rw [rjget.eq_def]
    simp only [hs, hnull, JsonVal.isNull, hr]
    simp
  · intro hr
    rw [rjget.eq_def]
    simp only [hs, hnull, JsonVal.isNull, hr]
    simp

/-- C5 witness: a store (modelled as a `Nat` state) where the document is
missing in state `0`; a `rerun` fallback moves the store to state `1` and
the get is re-issued once against the updated store with no trailing
arguments. -/
theorem rjget_fallback_protocol_witness :
    rjget (σ := Nat)
      (fun s _ _ => if s = 0 then JsonVal.null else JsonVal.str "[7]")
      (fun _ => JsonVal.arr [JsonVal.num 7]) "p:" 0 "k" "x" none
      [RArg.str "rerun", RArg.func (fun _ _ _ => (1, JsonVal.str "filled"))]
    = rjget (σ := Nat)
      (fun s _ _ => if s = 0 then JsonVal.null else JsonVal.str "[7]")
      (fun _ => JsonVal.arr [JsonVal.num 7]) "p:" 1 "p:k" "$.x" none [] :=
  (rjget_fallback_protocol
    (fun s _ _ => if s = 0 then JsonVal.null else JsonVal.str "[7]")
    (fun _ => JsonVal.arr [JsonVal.num 7]) "p:" 0 "k" "x" none
    [RArg.str "rerun", RArg.func (fun _ _ _ => (1, JsonVal.str "filled"))]
    ⟨true, false, false⟩ (fun _ _ _ => (1, JsonVal.str "filled")) []
    rfl (by simp [rjresolve, JsonVal.isNull])).2.1 rfl

/-- C6: result shaping of `rjget` (no callback, no fallback arguments): a
missing key (null reply) yields `null`; an existing key with an absent
path (reply parsing to `[]`) yields the empty array; with
`empty_array_null` an empty-array result becomes `null`; without
`keep_array` a one-element array result is unwrapped to its bare element;
with `keep_array` a singleton array is preserved as-is. -/
theorem rjget_result_shaping {σ : Type}
    (oracle : σ → String → String → JsonVal) (parse : String → JsonVal)
    (pfx : String) (store : σ) (hkey path : String)
    (rep : String) (v : JsonVal) :
    (oracle store (rpfx pfx hkey) (rjpath path) = JsonVal.null →
      rjget oracle parse pfx store hkey path none [] = (store, JsonVal.null))
    ∧ (oracle store (rpfx pfx hkey) (rjpath path) = JsonVal.str rep →
      parse rep = JsonVal.arr [] →
      rjget oracle parse pfx store hkey path none [] = (store, JsonVal.arr []))
    ∧ (oracle store (rpfx pfx hkey) (rjpath path) = JsonVal.str rep →
      parse rep = JsonVal.arr [] →
      rjget oracle parse pfx store hkey path none [RArg.str "empty_array_null"]
        = (store, JsonVal.null))
    ∧ (oracle store (rpfx pfx hkey) (rjpath path) = JsonVal.str rep →
      parse rep = JsonVal.arr [v] →
      rjget oracle parse pfx store hkey path none [] = (store, v))
    ∧ (oracle store (rpfx pfx hkey) (rjpath path) = JsonVal.str rep →
      parse rep = JsonVal.arr [v] →
      rjget oracle parse pfx store hkey path none [RArg.str "keep_array"]
        = (store, JsonVal.arr [v])) := by
  refine ⟨?_, ?_, ?_, ?_, ?_⟩
  · intro h
    rw [rjget.eq_def]
    simp [spliceOpts, spliceTok, h, rjresolve, JsonVal.isNull]
  · intro h hp
    rw [rjget.eq_def]
    simp [spliceOpts, spliceTok, h, hp, rjresolve, JsonVal.isNull]
  · intro h hp
    rw [rjget.eq_def]
    simp [spliceOpts, spliceTok, h, hp, rjresolve, JsonVal.isNull]
  · intro h hp
    rw [rjget.eq_def]
    simp [spliceOpts, spliceTok, h, hp, rjresolve, JsonVal.isNull]
  · intro h hp
    rw [rjget.eq_def]
    simp [spliceOpts, spliceTok, h, hp, rjresolve, JsonVal.isNull]

/-- C6 witness: the five shaping behaviours at concrete stores. -/
theorem rjget_result_shaping_witness :
    (rjget (σ := Unit) (fun _ _ _ => JsonVal.null) (fun _ => JsonVal.null)
      "p:" () "k" "x" none [] = ((), JsonVal.null))
    ∧ (rjget (σ := Unit) (fun _ _ _ => JsonVal.str "[]")
      (fun _ => JsonVal.arr []) "p:" () "k" "x" none []
        = ((), JsonVal.arr []))
    ∧ (rjget (σ := Unit) (fun _ _ _ => JsonVal.str "[]")
      (fun _ => JsonVal.arr []) "p:" () "k" "x" none
        [RArg.str "empty_array_null"] = ((), JsonVal.null))
    ∧ (rjget (σ := Unit) (fun _ _ _ => JsonVal.str "[5]")
      (fun _ => JsonVal.arr [JsonVal.num 5]) "p:" () "k" "x" none []
        = ((), JsonVal.num 5))
    ∧ (rjget (σ := Unit) (fun _ _ _ => JsonVal.str "[5]")
      (fun _ => JsonVal.arr [JsonVal.num 5]) "p:" () "k" "x" none
        [RArg.str "keep_array"] = ((), JsonVal.arr [JsonVal.num 5])) :=
  ⟨(rjget_result_shaping (fun _ _ _ => JsonVal.null) (fun _ => JsonVal.null)
      "p:" () "k" "x" "r" JsonVal.null).1 rfl,
   (rjget_result_shaping (fun _ _ _ => JsonVal.str "[]")
      (fun _ => JsonVal.arr []) "p:" () "k" "x" "[]" JsonVal.null).2.1 rfl rfl,
   (rjget_result_shaping (fun _ _ _ => JsonVal.str "[]")
      (fun _ => JsonVal.arr []) "p:" () "k" "x" "[]" JsonVal.null).2.2.1
        rfl rfl,
   (rjget_result_shaping (fun _ _ _ => JsonVal.str "[5]")
      (fun _ => JsonVal.arr [JsonVal.num 5]) "p:" () "k" "x" "[5]"
        (JsonVal.num 5)).2.2.2.1 rfl rfl,
   (rjget_result_shaping (fun _ _ _ => JsonVal.str "[5]")
      (fun _ => JsonVal.arr [JsonVal.num 5]) "p:" () "k" "x" "[5]"
        (JsonVal.num 5)).2.2.2.2 rfl rfl⟩

/-- A JavaScript value appearing as a command-descriptor element or a
command result: strings, numbers, `null`, functions (callbacks — carried
as an index into an external function environment, since a value type
cannot recursively contain functions over itself), the batch-context
object (structurally the only value exposing `.exec`), arrays, and
anything else. -/
inductive BArg where
  | str (s : String)
  | num (n : Int)
  | null
  | func (id : Nat)
  | pipe
  | arr (xs : List BArg)
  | other

/-- `redis_method.indexOf('.') !== -1`. -/
def hasDot (method : String) : Bool := method.data.contains '.'

/-- `s.indexOf(sub) !== -1`: substring containment. -/
def strContainsSub (needle hay : String) : Bool :=
  hay.data.tails.any (fun t => needle.data.isPrefixOf t)

/-- `s.substring(0, 1) === c`: first-character test. -/
def strHeadIs (c : Char) (s : String) : Bool := s.data.take 1 == [c]

/-- `rest_arg !== null` test. -/
def isNullArg : BArg → Bool
  | BArg.null => true
  | _ => false

/-- `typeof rest_arg === 'function'` test. -/
def isFuncArg : BArg → Bool
  | BArg.func _ => true
  | _ => false

/-- Embeds `_rexec`: if the last element of `rest_args` is truthy and has
an `.exec` member (here, only the batch-context object), pop it and use it
as the execution target; otherwise the live connection is the target.
Returns (went to a batch context?, remaining args). -/
def rexec (rest_args : List BArg) : Bool × List BArg :=
  match rest_args.getLast? with
  | some BArg.pipe => (true, rest_args.dropLast)
  | _ => (false, rest_args)

/-- A command as it reaches the underlying connection or batch context:
method name, positional arguments (key first), whether it was queued into
a batch context (`viaPipe`), and whether it went through the raw `call`
dispatch (`raw`). -/
structure QCmd where
  method : String
  args : List BArg
  viaPipe : Bool
  raw : Bool

/-- Embeds `_rraw`; `stringify` models `JSON.stringify`.  Source:
```
_rraw(redis_method, ...rest_args) {
    const execer = this._rexec(rest_args)
    if (redis_method.indexOf('JSON.') === 0 && rest_args.length >= 3 &&
        (rest_args[2] !== null || redis_method === 'JSON.SET' ||
         redis_method === 'JSON.ARRINSERT' || redis_method === 'JSON.ARRAPPEND') &&
        typeof rest_args[2] !== 'function')
        rest_args[2] = JSON.stringify(rest_args[2])
    if (redis_method === 'JSON.ARRINSERT' && rest_args.length >= 4)
        [rest_args[3], rest_args[2]] = [rest_args[2], rest_args[3]]
    return execer.call(redis_method, ...rest_args)
}
``` -/
def rraw (stringify : BArg → String) (redis_method : String)
    (rest_args : List BArg) : QCmd :=
  let er := rexec rest_args
  let rest := er.2
  let rest := if ("JSON.".data.isPrefixOf redis_method.data)
      && decide (rest.length ≥ 3)
      && (!(isNullArg (rest.getD 2 BArg.other)) || redis_method == "JSON.SET"
          || redis_method == "JSON.ARRINSERT" || redis_method == "JSON.ARRAPPEND")
      && !(isFuncArg (rest.getD 2 BArg.other))
    then rest.set 2 (BArg.str (stringify (rest.getD 2 BArg.other)))
    else rest
  let rest := if redis_method == "JSON.ARRINSERT" && decide (rest.length ≥ 4)
    then (rest.set 2 (rest.getD 3 BArg.other)).set 3 (rest.getD 2 BArg.other)
    else rest
  { method := redis_method, args := rest, viaPipe := er.1, raw := true }

/-- Embeds `_redis_call` (the caller passes `hkey` already prefixed).
Source:
```
_redis_call(redis_method, hkey, ...rest_args) {
    if (redis_method.indexOf('.') !== -1) {
        rest_args.unshift(hkey)
        return this._rraw(redis_method, ...rest_args)
    } else {
        if (rest_args.length > 0 && hkey.substring(0, 1) === '{' &&
            (redis_method === 'del' ||
             (redis_method.substring(0, 1) === 'z' && redis_method.indexOf('store') !== -1)))
            rest_args = rest_args.map((rest_arg) =>
                typeof rest_arg !== 'string' || rest_arg.substring(0, 1) !== '{'
                    ? rest_arg : this._rpfx(rest_arg))
        const execer = this._rexec(rest_args)
        return execer[redis_method](hkey, ...rest_args)
    }
}
``` -/
def redis_call (stringify : BArg → String) (pfx : String)
    (redis_method : String) (hkey : String) (rest_args : List BArg) : QCmd :=
  if hasDot redis_method then
    rraw stringify redis_method (BArg.str hkey :: rest_args)
  else
    let rest := if decide (rest_args.length > 0) && strHeadIs '{' hkey
        && (redis_method == "del"
            || (strHeadIs 'z' redis_method
                && strContainsSub "store" redis_method))
      then rest_args.map (fun a =>
        match a with
        | BArg.str s => if strHeadIs '{' s then BArg.str (rpfx pfx s) else BArg.str s
        | a => a)
      else rest_args
    let er := rexec rest
    { method := redis_method, args := BArg.str hkey :: er.2,
      viaPipe := er.1, raw := false }

/-- `this._redis_call(...commands[i])` for a full descriptor; `none` when
the descriptor's method or key is not a string (the source would throw). -/
def redisCallDesc (stringify : BArg → String) (pfx : String) :
    List BArg → Option QCmd
  | BArg.str m :: BArg.str k :: rest => some (redis_call stringify pfx m k rest)
  | _ => none

/-- The per-descriptor in-place update performed by both batch-executor
loops:
```
if (commands[i].length > 1) commands[i][1] = this._rpfx(commands[i][1])
commands[i].push(rpipe)
```
(for a descriptor whose element 1 is not a string, `_rpfx` would throw;
that case is left unchanged here). -/
def pipeMutateCmd (pfx : String) (c : List BArg) : List BArg :=
  (match c with
   | m :: BArg.str k :: rest => m :: BArg.str (rpfx pfx k) :: rest
   | c => c) ++ [BArg.pipe]

/-- Result of `rpipe.exec()` as observed by this layer: an array of
`[error, result]` pairs, or any non-array value. -/
inductive ExecR where
  | arr (pairs : List (BArg × BArg))
  | notArr (v : BArg)

/-- Observable outcome of `rpipemulti`: the caller-visible (mutated)
commands array, the commands queued into the batch context, and the value
returned by `exec`.  `execP mode queued` is the oracle for the batch
context created by `this.redisClient[type]()` executing its queue in one
round trip. -/
structure PipeRun where
  mutated : List (List BArg)
  queued : List (Option QCmd)
  result : ExecR

/-- Embeds `rpipemulti(commands, arg2, cb)`.  `arg2 === 't'` selects a
transaction (`multi`); a function `arg2` becomes the callback, which only
changes how the exec result is delivered (`rpipe.exec(cb)` versus
`rpipe.exec()`), not the queued commands or the result value.  Source:
```
let type = 'pipeline'
if (arg2) {
    if (typeof arg2 === 'function') { cb = arg2 }
    else { if (arg2 === 't') type = 'multi'; if (cb && typeof cb !== 'function') cb = null }
}
let rpipe = this.redisClient[type]()
for (let i = 0; i < commands.length; ++i) {
    if (commands[i].length > 1) commands[i][1] = this._rpfx(commands[i][1])
    commands[i].push(rpipe)
    this._redis_call(...commands[i])
}
let ret = cb ? rpipe.exec((err, results) => cb(err, results)) : rpipe.exec()
return ret
``` -/
def rpipemulti (stringify : BArg → String) (pfx : String)
    (execP : String → List (Option QCmd) → ExecR)
    (commands : List (List BArg)) (arg2 cb : Option BArg) : PipeRun :=
  let type := match arg2 with
    | some (BArg.str s) => if s == "t" then "multi" else "pipeline"
    | _ => "pipeline"
  let mutated := commands.map (pipeMutateCmd pfx)
  let queued := mutated.map (redisCallDesc stringify pfx)
  { mutated := mutated, queued := queued, result := execP type queued }

/-- Outcome of `rpipemulti2array`: for a non-array or empty exec reply the
reply itself is passed through; otherwise the bare results with every
error slot discarded. -/
inductive ArrOut where
  | passthru (r : ExecR)
  | results (vals : List BArg)

/-- Observable outcome of `rpipemulti2array`. -/
structure Pipe2ArrRun where
  mutated : List (List BArg)
  queued : List (Option QCmd)
  out : ArrOut

/-- Embeds `rpipemulti2array(commands)` (always a pipeline).  Source:
```
let rpipe = this.redisClient.pipeline()
for (let i = 0; i < commands.length; ++i) {
    if (commands[i].length > 1) commands[i][1] = this._rpfx(commands[i][1])
    commands[i].push(rpipe)
    this._redis_call(...commands[i])
}
let ret = await rpipe.exec()
if (!Array.isArray(ret) || !ret.length) return Promise.resolve(ret)
return Promise.resolve(ret.map((r) => r[1]))
``` -/
def rpipemulti2array (stringify : BArg → String) (pfx : String)
    (execP : String → List (Option QCmd) → ExecR)
    (commands : List (List BArg)) : Pipe2ArrRun :=
  let mutated := commands.map (pipeMutateCmd pfx)
  let queued := mutated.map (redisCallDesc stringify pfx)
  { mutated := mutated, queued := queued,
    out := match execP "pipeline" queued with
      | ExecR.notArr v => ArrOut.passthru (ExecR.notArr v)
      | ExecR.arr [] => ArrOut.passthru (ExecR.arr [])
      | ExecR.arr (p :: ps) => ArrOut.results ((p :: ps).map Prod.snd) }

/-- Result of a single dispatched command: executed directly against the
connection (with the oracle's result value), or queued into a batch
context. -/
inductive CallRet where
  | direct (v : BArg)
  | queued (q : QCmd)

/-- `_redis_call` together with its execution: if the trailing argument
was the batch context, the command is queued; otherwise the connection
executes it and the `direct` oracle supplies the result value. -/
def redisCallRun (stringify : BArg → String) (pfx : String)
    (direct : QCmd → BArg) (redis_method : String) (hkey : String)
    (rest_args : List BArg) : CallRet :=
  let q := redis_call stringify pfx redis_method hkey rest_args
  if q.viaPipe then CallRet.queued q else CallRet.direct (direct q)

/-- `rest_args.pop()` of a trailing function (the async callback). -/
def popFunc (rest_args : List BArg) : Option Nat × List BArg :=
  match rest_args.getLast? with
  | some (BArg.func f) => (some f, rest_args.dropLast)
  | _ => (none, rest_args)

/-- Embeds `rr(redis_method, hkey, ...rest_args)`: prefix the key, pop a
trailing function as the callback; without a callback dispatch directly;
with one, dispatch with a node-style resolver appended (modelled as
`BArg.func 0` — the resolver is a fresh anonymous function consumed by the
connection, so its identity is immaterial) and resolve with `cb(result)`.
This path always executes on the connection: the appended resolver, not a
batch context, is then the last argument.  `fenv` interprets function
values. -/
def rr (stringify : BArg → String) (pfx : String) (direct : QCmd → BArg)
    (fenv : Nat → BArg → BArg) (redis_method : String) (hkey : String)
    (rest_args : List BArg) : CallRet :=
  let hkey := rpfx pfx hkey
  match popFunc rest_args with
  | (none, rest) => redisCallRun stringify pfx direct redis_method hkey rest
  | (some cb, rest) =>
    let q := redis_call stringify pfx redis_method hkey
      (rest ++ [BArg.func 0])
    CallRet.direct (fenv cb (direct q))

/-- Outcome of `rpipemaybe`: either the single command's direct dispatch
(`rr`) or a full batch run. -/
inductive MaybeRet where
  | single (r : CallRet)
  | batched (r : PipeRun)

/-- Embeds `rpipemaybe(commands)`:
`commands.length === 1 ? this.rr(...commands[0]) : this.rpipemulti(commands)`.
A single descriptor whose method or key is not a string is outside the
model (the source would throw inside `rr`). -/
def rpipemaybe (stringify : BArg → String) (pfx : String)
    (direct : QCmd → BArg) (fenv : Nat → BArg → BArg)
    (execP : String → List (Option QCmd) → ExecR)
    (commands : List (List BArg)) : MaybeRet :=
  if commands.length = 1 then
    match commands.headD [] with
    | BArg.str m :: BArg.str k :: rest =>
      MaybeRet.single (rr stringify pfx direct fenv m k rest)
    | _ => MaybeRet.single (CallRet.direct BArg.other)
  else MaybeRet.batched (rpipemulti stringify pfx execP commands none none)

/-- C7: the single-command shortcut: a batch of exactly one command
bypasses batching and yields precisely the direct (non-batched) dispatch
`rr` of that command; the batch execution oracle is never consulted. -/
theorem rpipemaybe_singleton_direct (stringify : BArg → String)
    (pfx : String) (direct : QCmd → BArg) (fenv : Nat → BArg → BArg)
    (execP execP' : String → List (Option QCmd) → ExecR)
    (m k : String) (rest : List BArg) :
    rpipemaybe stringify pfx direct fenv execP
        [BArg.str m :: BArg.str k :: rest]
      = MaybeRet.single (rr stringify pfx direct fenv m k rest)
    ∧ rpipemaybe stringify pfx direct fenv execP
        [BArg.str m :: BArg.str k :: rest]
      = rpipemaybe stringify pfx direct fenv execP'
          [BArg.str m :: BArg.str k :: rest] := by
  constructor <;> rfl

/-- C3: `rpipemulti2array` flattens the pipeline's `[error, result]` pairs
by discarding every error slot: when the exec oracle returns the batch's
pairs in submission order, the output is the bare results in the same
order (one per command when the pipeline returns one pair per command),
and two executions whose pairs agree on results but differ arbitrarily in
error slots are indistinguishable to the caller. -/
theorem rpipemulti2array_discards_errors (stringify : BArg → String)
    (pfx : String) (execP : String → List (Option QCmd) → ExecR)
    (commands : List (List BArg)) (ps : List (BArg × BArg))
    (h : execP "pipeline"
        ((commands.map (pipeMutateCmd pfx)).map (redisCallDesc stringify pfx))
      = ExecR.arr ps)
    (hne : ps ≠ []) :
    (rpipemulti2array stringify pfx execP commands).out
      = ArrOut.results (ps.map Prod.snd)
    ∧ (ps.length = commands.length →
        (ps.map Prod.snd).length = commands.length)
    ∧ (∀ (execP' : String → List (Option QCmd) → ExecR)
          (ps' : List (BArg × BArg)),
        execP' "pipeline"
            ((commands.map (pipeMutateCmd pfx)).map
              (redisCallDesc stringify pfx))
          = ExecR.arr ps' →
        ps'.map Prod.snd = ps.map Prod.snd →
        (rpipemulti2array stringify pfx execP' commands).out
          = (rpipemulti2array stringify pfx execP commands).out) := by
  obtain ⟨p, ps, rfl⟩ := List.exists_cons_of_ne_nil hne
  refine ⟨?_, ?_, ?_⟩
  · simp only [rpipemulti2array]
    rw [h]
  · intro hM
    simpa using hM
  · intro execP' ps' h' hmap
    obtain ⟨p', ps'', rfl⟩ : ∃ a l, ps' = a :: l := by
      cases ps' with
      | nil => simp at hmap
      | cons a l => exact ⟨a, l, rfl⟩
    simp only [rpipemulti2array]
    rw [h, h']
    simp [hmap]

/-- C3 witness: two queued `del` commands; the exec pairs carry one
per-command error; the flattened output contains only the results. -/
theorem rpipemulti2array_discards_errors_witness :
    (rpipemulti2array (fun _ => "") "p:"
      (fun _ _ => ExecR.arr
        [(BArg.null, BArg.str "1"), (BArg.str "ERR", BArg.str "2")])
      [[BArg.str "del", BArg.str "a"], [BArg.str "del", BArg.str "b"]]).out
    = ArrOut.results [BArg.str "1", BArg.str "2"] :=
  (rpipemulti2array_discards_errors (fun _ => "") "p:"
    (fun _ _ => ExecR.arr
      [(BArg.null, BArg.str "1"), (BArg.str "ERR", BArg.str "2")])
    [[BArg.str "del", BArg.str "a"], [BArg.str "del", BArg.str "b"]]
    [(BArg.null, BArg.str "1"), (BArg.str "ERR", BArg.str "2")]
    rfl (by simp)).1

/-- C10: both batch executors mutate every caller-supplied descriptor in
place: the key at position 2 (index 1) is replaced by its prefixed form
and the batch context is appended as a trailing element.  Every mutated
descriptor differs from the original, and mutating an already-mutated
descriptor changes it again, so a descriptor array consumed by one batch
execution does not queue the same commands when reused. -/
theorem rpipemulti_mutates_descriptors (stringify : BArg → String)
    (pfx : String) (execP : String → List (Option QCmd) → ExecR)
    (arg2 cb : Option BArg) (commands : List (List BArg)) :
    (rpipemulti stringify pfx execP commands arg2 cb).mutated
      = commands.map (pipeMutateCmd pfx)
    ∧ (rpipemulti2array stringify pfx execP commands).mutated
      = commands.map (pipeMutateCmd pfx)
    ∧ (∀ (a : BArg) (k : String) (rest : List BArg),
        pipeMutateCmd pfx (a :: BArg.str k :: rest)
          = a :: BArg.str (rpfx pfx k) :: (rest ++ [BArg.pipe]))
    ∧ (∀ c, c ∈ commands → pipeMutateCmd pfx c ≠ c)
    ∧ (∀ c, pipeMutateCmd pfx (pipeMutateCmd pfx c) ≠ pipeMutateCmd pfx c) := by
  have hlen : ∀ c : List BArg, (pipeMutateCmd pfx c).length = c.length + 1 := by
    intro c
    match c with
    | [] => simp [pipeMutateCmd]
    | [a] => cases a <;> simp [pipeMutateCmd]
    | a :: b :: rest => cases b <;> simp [pipeMutateCmd]
  refine ⟨rfl, rfl, ?_, ?_, ?_⟩
  · intro a k rest
    simp [pipeMutateCmd]
  · intro c _ h
    have hc := congrArg List.length h
    rw [hlen c] at hc
    omega
  · intro c h
    have hc := congrArg List.length h
    rw [hlen (pipeMutateCmd pfx c)] at hc
    omega

/-- C10 witness: a concrete `del` descriptor has its key prefixed and the
batch context appended, and the mutated descriptor is not the original. -/
theorem rpipemulti_mutates_descriptors_witness :
    pipeMutateCmd "p:" [BArg.str "del", BArg.str "k"]
      = [BArg.str "del", BArg.str (rpfx "p:" "k"), BArg.pipe]
    ∧ pipeMutateCmd "p:" [BArg.str "del", BArg.str "k"]
      ≠ [BArg.str "del", BArg.str "k"] :=
  ⟨(rpipemulti_mutates_descriptors (fun _ => "") "p:"
      (fun _ _ => ExecR.notArr BArg.null) none none
      [[BArg.str "del", BArg.str "k"]]).2.2.1 (BArg.str "del") "k" [],
   (rpipemulti_mutates_descriptors (fun _ => "") "p:"
      (fun _ _ => ExecR.notArr BArg.null) none none
      [[BArg.str "del", BArg.str "k"]]).2.2.2.1
      [BArg.str "del", BArg.str "k"] (by simp)⟩

/-- The recognized option tokens of `rscan` (`opts.return` is `ret` here,
`return` being reserved in Lean).  `count` is forwarded to the connection
as the COUNT hint when building `params` and does not otherwise enter the
loop. -/
structure ScanOpts where
  ret : Bool
  return_cursor : Bool
  one : Bool
  cursor : Nat
  cb_all : Bool
  count : Option Nat

/-- Per-round consumption of a batch by the callback when `cb_all` is not
set: repeatedly `splice` the last `num_params` elements off the batch
(2 for `hscan` field/value groups, 1 for `scan` keys) and invoke the
callback with the group, until the batch is exhausted.  The callback is
modelled as a state transformer on `σ` (`splice(-0)` would remove the
whole array, ending after a single call with the entire batch; the source
only ever uses 1 or 2). -/
def consumeGroups {σ : Type} (f : List String → σ → σ) (num_params : Nat)
    (items : List String) (s : σ) : σ :=
  if hempty : items.isEmpty = true then s
  else if num_params = 0 then f items s
  else
    consumeGroups f num_params (items.take (items.length - num_params))
      (f (items.drop (items.length - num_params)) s)
termination_by items.length
decreasing_by
  have hne : items ≠ [] := by
    intro h0
    rw [h0] at hempty
    simp at hempty
  have hpos : 0 < items.length := List.length_pos.mpr hne
  simp only [List.length_take]
  omega

/-- One round's consumption of `result[1]`:
```
if (result.length > 1 && Array.isArray(result[1]) && result[1].length) {
    if (cb) {
        if (opts.cb_all) { cb_ret = cb(result[1]); if (cb_ret instanceof Promise) await cb_ret }
        else { while (result[1].length) { let params_cb = result[1].splice(-num_params);
               cb_ret = cb(...params_cb); if (cb_ret instanceof Promise) await cb_ret } }
    } else if (opts.return) { keys.splice(keys.length, 0, ...result[1]) }
}
```
(`items = []` also covers a missing or non-array `result[1]`, consumed
identically — nothing happens). -/
def scanConsume {σ : Type} (cb : Option (List String → σ → σ))
    (opts : ScanOpts) (num_params : Nat) (items keys : List String)
    (s : σ) : List String × σ :=
  if items.isEmpty then (keys, s)
  else
    match cb with
    | some f =>
      if opts.cb_all then (keys, f items s)
      else (keys, consumeGroups f num_params items s)
    | none => if opts.ret then (keys ++ items, s) else (keys, s)

/-- The `rscan` enumeration loop, with fuel.  `oracle i` models
```
await new Promise((resolve) => this.redisClient[func](...params, (_err, _result) => resolve(_result)))
```
at cursor `i`, the (already prefixed) MATCH pattern and COUNT hint being
fixed through the loop: `none` for a malformed or empty payload
(`!Array.isArray(result) || !result.length`, which breaks), and
`some (next, items)` for a payload with `parseInt(result[0]) = next` and
items `result[1]`.  Source:
```
while (true) {
    let result = await ...
    if (!Array.isArray(result) || !result.length) break
    i = parseInt(result[0])
    params[func === 'scan' ? 0 : 1] = i
    ...consumption (see scanConsume)...
    if (!i || opts.one) break
}
```
Returns `none` when the fuel runs out (the source would still be
looping), else `some (final cursor, accumulated keys, callback state)`. -/
def rscanLoop {σ : Type} (oracle : Nat → Option (Nat × List String))
    (cb : Option (List String → σ → σ)) (opts : ScanOpts)
    (num_params : Nat) :
    Nat → Nat → List String → σ → Option (Nat × List String × σ)
  | 0, _, _, _ => none
  | fuel + 1, i, keys, s =>
    match oracle i with
    | none => some (i, keys, s)
    | some (next, items) =>
      let step := scanConsume cb opts num_params items keys s
      if next = 0 ∨ opts.one = true then some (next, step.1, step.2)
      else rscanLoop oracle cb opts num_params fuel next step.1 step.2

/-- Shape of `rscan`'s return value:
`opts.return_cursor ? [i, keys] : keys`. -/
inductive ScanRet where
  | keysOnly (keys : List String)
  | withCursor (cursor : Nat) (keys : List String)
deriving DecidableEq

/-- Embeds `rscan(ptn, cb, hkey, opts)` around `rscanLoop`: the initial
cursor is `opts.cursor` (`opts.cursor ? opts.cursor - 0 : 0`, identical
for a `Nat`), `num_params` is 2 for a field scan (`hscan`, when a hash
key is supplied) and 1 for a key scan.  The prefixing of the pattern or
hash key (`this._rpfx`) happens before the loop and is absorbed into the
oracle, which models the connection's scan at the fixed prefixed
pattern and count. -/
def rscan {σ : Type} (oracle : Nat → Option (Nat × List String))
    (cb : Option (List String → σ → σ)) (opts : ScanOpts)
    (isHscan : Bool) (fuel : Nat) (s : σ) : Option (ScanRet × σ) :=
  let num_params := if isHscan then 2 else 1
  match rscanLoop oracle cb opts num_params fuel opts.cursor [] s with
  | none => none
  | some (i, keys, s') =>
    some ((if opts.return_cursor then ScanRet.withCursor i keys
           else ScanRet.keysOnly keys), s')

/-- Prepend keys to a scan result (used to state resumption). -/
def prependScan (items : List String) : ScanRet → ScanRet
  | ScanRet.keysOnly keys => ScanRet.keysOnly (items ++ keys)
  | ScanRet.withCursor c keys => ScanRet.withCursor c (items ++ keys)

theorem scanConsume_none_ret {σ : Type} (opts : ScanOpts)
    (num_params : Nat) (items keys : List String) (s : σ)
    (hret : opts.ret = true) :
    scanConsume none opts num_params items keys s = (keys ++ items, s) := by
  by_cases hempty : items.isEmpty = true
  · have : items = [] := by
      cases items with
      | nil => rfl
      | cons a l => simp [List.isEmpty] at hempty
    simp [scanConsume, hempty, this]
  · simp [scanConsume, hempty, hret]

theorem rscanLoop_opts_used_fields {σ : Type}
    (oracle : Nat → Option (Nat × List String))
    (cb : Option (List String → σ → σ)) (num_params : Nat)
    (o1 o2 : ScanOpts) (h1 : o1.ret = o2.ret) (h2 : o1.one = o2.one)
    (h3 : o1.cb_all = o2.cb_all) :
    ∀ (fuel i : Nat) (keys : List String) (s : σ),
      rscanLoop oracle cb o1 num_params fuel i keys s
        = rscanLoop oracle cb o2 num_params fuel i keys s := by
  intro fuel
  induction fuel with
  | zero =>
    intro i keys s
    simp [rscanLoop]
  | succ fuel ih =>
    intro i keys s
    cases horacle : oracle i with
    | none => simp [rscanLoop, horacle]
    | some nx =>
      obtain ⟨next, items⟩ := nx
      simp only [rscanLoop, horacle]
      have hcons : scanConsume cb o1 num_params items keys s
          = scanConsume cb o2 num_params items keys s := by
        simp only [scanConsume, h1, h3]
      rw [hcons, h2]
      by_cases hbreak : next = 0 ∨ o2.one = true
      · rw [if_pos hbreak, if_pos hbreak]
      · rw [if_neg hbreak, if_neg hbreak, ih]

theorem rscanLoop_append_keys {σ : Type}
    (oracle : Nat → Option (Nat × List String)) (opts : ScanOpts)
    (num_params : Nat) (hret : opts.ret = true) :
    ∀ (fuel i : Nat) (keys : List String) (s : σ),
      rscanLoop oracle none opts num_params fuel i keys s
        = (rscanLoop oracle none opts num_params fuel i [] s).map
            (fun r => (r.1, keys ++ r.2.1, r.2.2)) := by
  intro fuel
  induction fuel with
  | zero =>
    intro i keys s
    simp [rscanLoop]
  | succ fuel ih =>
    intro i keys s
    cases horacle : oracle i with
    | none => simp [rscanLoop, horacle]
    | some nx =>
      obtain ⟨next, items⟩ := nx
      simp only [rscanLoop, horacle]
      rw [scanConsume_none_ret opts num_params items keys s hret,
        scanConsume_none_ret opts num_params items [] s hret]
      simp only [List.nil_append]
      by_cases hbreak : next = 0 ∨ opts.one = true
      · rw [if_pos hbreak, if_pos hbreak]
        simp
      · rw [if_neg hbreak, if_neg hbreak]
        rw [ih next (keys ++ items) s, ih next items s]
        cases rscanLoop oracle none opts num_params fuel next [] s with
        | none => simp
        | some r => simp [List.append_assoc]

/-- C8: a scan round whose payload is malformed or empty (not an array,
or an empty array) terminates the enumeration silently: the loop returns
normally with the keys accumulated so far and the current cursor (first
conjunct, at any point of the enumeration); at top level a first-round
malformed payload returns the empty accumulation rather than signaling a
failure (second conjunct). -/
theorem rscan_malformed_payload_returns_accumulated {σ : Type}
    (oracle : Nat → Option (Nat × List String))
    (cb : Option (List String → σ → σ)) (opts : ScanOpts)
    (num_params fuel i : Nat) (keys : List String) (s : σ) (isHscan : Bool)
    (h : oracle i = none) :
    rscanLoop oracle cb opts num_params (fuel + 1) i keys s
      = some (i, keys, s)
    ∧ (oracle opts.cursor = none →
      rscan oracle cb opts isHscan (fuel + 1) s
        = some ((if opts.return_cursor then ScanRet.withCursor opts.cursor []
                 else ScanRet.keysOnly []), s)) := by
  constructor
  · simp only [rscanLoop, h]
  · intro h0
    have hloop : rscanLoop oracle cb opts (if isHscan then 2 else 1)
        (fuel + 1) opts.cursor [] s = some (opts.cursor, [], s) := by
      simp only [rscanLoop, h0]
    simp [rscan, hloop]

/-- C8 witness: a scan that accumulated `["a"]` in round one and receives
a malformed payload in round two returns the accumulation and the last
cursor, without failing. -/
theorem rscan_malformed_payload_returns_accumulated_witness :
    rscanLoop (σ := Unit) (fun c => if c = 0 then some (5, ["a"]) else none)
      none ⟨true, true, false, 0, false, none⟩ 1 1 5 ["a"] ()
      = some (5, ["a"], ()) :=
  (rscan_malformed_payload_returns_accumulated
    (fun c => if c = 0 then some (5, ["a"]) else none) none
    ⟨true, true, false, 0, false, none⟩ 1 0 5 ["a"] () false
    (by simp)).1

/-- C2 (counterexample): with `{one: true}` the scan stops after exactly
one round even when that round carried no matches, not after one
non-empty round: against a connection whose round at cursor 0 returns
`[3, []]` and whose round at cursor 3 returns `[0, ['a']]`, the one-shot
scan returns cursor 3 with no keys — it did not continue to a non-empty
round although a match remained (the same scan without `one` yields
`['a']`). -/
theorem rscan_one_stops_on_empty_round :
    rscan (σ := Unit)
      (fun c => if c = 0 then some (3, []) else
        if c = 3 then some (0, ["a"]) else none)
      none ⟨true, true, true, 0, false, none⟩ false 5 ()
      = some (ScanRet.withCursor 3 [], ())
    ∧ rscan (σ := Unit)
      (fun c => if c = 0 then some (3, []) else
        if c = 3 then some (0, ["a"]) else none)
      none ⟨true, true, false, 0, false, none⟩ false 5 ()
      = some (ScanRet.withCursor 0 ["a"], ()) := by
  constructor <;> rfl

/-- C2 (amended): with the `one` option the scan performs exactly one
round — whether or not that round yields matches — even if more matches
remain: regardless of remaining fuel, its outcome is fully determined by
the oracle's reply at the starting cursor, and with `return_cursor` it
returns that round's next cursor together with its items.  The cursor is
usable to resume the enumeration: the full accumulating scan from the
starting cursor equals that round's items followed by the full scan
resumed from the returned cursor. -/
theorem rscan_one_single_round_resumable
    (oracle : Nat → Option (Nat × List String)) (isHscan : Bool)
    (cursor0 next fuel : Nat) (items : List String)
    (h : oracle cursor0 = some (next, items)) (hnz : next ≠ 0) :
    rscan (σ := Unit) oracle none ⟨true, true, true, cursor0, false, none⟩
        isHscan (fuel + 1) ()
      = some (ScanRet.withCursor next items, ())
    ∧ ∀ fuel' : Nat,
      rscan (σ := Unit) oracle none
          ⟨true, true, false, cursor0, false, none⟩ isHscan (fuel' + 1) ()
        = (rscan (σ := Unit) oracle none
            ⟨true, true, false, next, false, none⟩ isHscan fuel' ()).map
            (fun r => (prependScan items r.1, r.2)) := by
  constructor
  · have hloop : rscanLoop (σ := Unit) oracle none
        ⟨true, true, true, cursor0, false, none⟩ (if isHscan then 2 else 1)
        (fuel + 1) cursor0 [] () = some (next, items, ()) := by
      simp only [rscanLoop, h]
      rw [scanConsume_none_ret ⟨true, true, true, cursor0, false, none⟩
        (if isHscan then 2 else 1) items [] () rfl]
      simp
    simp [rscan, hloop]
  · intro fuel'
    have hstep : rscanLoop (σ := Unit) oracle none
        ⟨true, true, false, cursor0, false, none⟩ (if isHscan then 2 else 1)
        (fuel' + 1) cursor0 [] ()
        = (rscanLoop (σ := Unit) oracle none
            ⟨true, true, false, next, false, none⟩ (if isHscan then 2 else 1)
            fuel' next [] ()).map
            (fun r => (r.1, items ++ r.2.1, r.2.2)) := by
      simp only [rscanLoop, h]
      rw [scanConsume_none_ret ⟨true, true, false, cursor0, false, none⟩
        (if isHscan then 2 else 1) items [] () rfl]
      simp only [List.nil_append]
      rw [if_neg (by simp [hnz])]
      rw [rscanLoop_append_keys oracle
        ⟨true, true, false, cursor0, false, none⟩
        (if isHscan then 2 else 1) rfl fuel' next items ()]
      rw [rscanLoop_opts_used_fields oracle none (if isHscan then 2 else 1)
        ⟨true, true, false, cursor0, false, none⟩
        ⟨true, true, false, next, false, none⟩ rfl rfl rfl fuel' next [] ()]
    simp only [rscan]
    rw [hstep]
    cases rscanLoop (σ := Unit) oracle none
        ⟨true, true, false, next, false, none⟩
        (if isHscan then 2 else 1) fuel' next [] () with
    | none => rfl
    | some r =>
      obtain ⟨c, keys, s⟩ := r
      simp [prependScan]

/-- C2 witness: a two-round keyspace; the one-shot scan returns the first
round's items with cursor 7, and the full scan from cursor 0 equals those
items followed by the full scan resumed from cursor 7. -/
theorem rscan_one_single_round_resumable_witness :
    rscan (σ := Unit)
      (fun c => if c = 0 then some (7, ["k1", "k2"]) else
        if c = 7 then some (0, ["k3"]) else none)
      none ⟨true, true, true, 0, false, none⟩ false 1 ()
      = some (ScanRet.withCursor 7 ["k1", "k2"], ())
    ∧ rscan (σ := Unit)
      (fun c => if c = 0 then some (7, ["k1", "k2"]) else
        if c = 7 then some (0, ["k3"]) else none)
      none ⟨true, true, false, 0, false, none⟩ false 2 ()
      = (rscan (σ := Unit)
          (fun c => if c = 0 then some (7, ["k1", "k2"]) else
            if c = 7 then some (0, ["k3"]) else none)
          none ⟨true, true, false, 7, false, none⟩ false 1 ()).map
          (fun r => (prependScan ["k1", "k2"] r.1, r.2)) :=
  ⟨(rscan_one_single_round_resumable
      (fun c => if c = 0 then some (7, ["k1", "k2"]) else
        if c = 7 then some (0, ["k3"]) else none)
      false 0 7 0 ["k1", "k2"] rfl (by decide)).1,
   (rscan_one_single_round_resumable
      (fun c => if c = 0 then some (7, ["k1", "k2"]) else
        if c = 7 then some (0, ["k3"]) else none)
      false 0 7 0 ["k1", "k2"] rfl (by decide)).2 1⟩

/-- `String.prototype.replace` with a plain-string pattern: replace the
first occurrence only (JavaScript `ptn.replace('*', _key)`), at the
`List Char` level. -/
def replaceFirstAux (pat repl : List Char) : List Char → List Char
  | [] => []
  | a :: rest =>
    if pat.isPrefixOf (a :: rest) then repl ++ (a :: rest).drop pat.length
    else a :: replaceFirstAux pat repl rest

/-- `s.replace(pat, repl)` on `String`s (first occurrence only). -/
def strReplaceFirst (s pat repl : String) : String :=
  String.mk (replaceFirstAux pat.data repl.data s.data)

/-- `ptn ? ptn.replace('*', _key) : _key` for one popped member.
(Non-string members would be coerced by JavaScript; they do not occur for
set or sorted-set members and are left unchanged here.) -/
def substPtn (ptn : Option String) : BArg → BArg
  | BArg.str s =>
    match ptn with
    | some p => BArg.str (strReplaceFirst p "*" s)
    | none => BArg.str s
  | a => a

/-- `_keys.filter((x, y) => !(y % 2))` — the second filter parameter is
the element index; keep the elements at even indices, with the running
index explicit. -/
def filterEvenIdx {α : Type} (n : Nat) : List α → List α
  | [] => []
  | a :: l =>
    if n % 2 = 0 then a :: filterEvenIdx (n + 1) l
    else filterEvenIdx (n + 1) l

/-- The filter of `rdel_from_set` for a sorted-set pop payload, starting
at index 0. -/
def evenIdxs {α : Type} (l : List α) : List α := filterEvenIdx 0 l

/-- The alternating member/score payload of a sorted-set pop:
`interleave ms ss = [m1, s1, m2, s2, ...]` (for equal lengths). -/
def interleave {α : Type} : List α → List α → List α
  | a :: as, b :: bs => a :: b :: interleave as bs
  | as, _ => as

theorem filterEvenIdx_shift {α : Type} (l : List α) :
    ∀ n, filterEvenIdx (n + 2) l = filterEvenIdx n l := by
  induction l with
  | nil => intro n; simp [filterEvenIdx]
  | cons a l ih =>
    intro n
    simp only [filterEvenIdx]
    have hmod : (n + 2) % 2 = n % 2 := Nat.add_mod_right n 2
    have hidx : n + 2 + 1 = n + 1 + 2 := by omega
    rw [hmod, hidx, ih (n + 1)]

theorem evenIdxs_cons2 {α : Type} (a b : α) (l : List α) :
    evenIdxs (a :: b :: l) = a :: evenIdxs l := by
  simp only [evenIdxs, filterEvenIdx]
  norm_num
  have := filterEvenIdx_shift l 0
  norm_num at this
  rw [this]

theorem evenIdxs_interleave {α : Type} :
    ∀ (as bs : List α), as.length = bs.length →
      evenIdxs (interleave as bs) = as := by
  intro as
  induction as with
  | nil =>
    intro bs h
    cases bs with
    | nil => rfl
    | cons b bs => simp at h
  | cons a as ih =>
    intro bs h
    cases bs with
    | nil => simp at h
    | cons b bs =>
      simp only [interleave]
      rw [evenIdxs_cons2, ih bs (by simpa using h)]

/-- Embeds `rdel_from_set(keys_set, is_sorted, ptn)`.  `direct n q` is the
connection's reply to the `n`-th pop round, `q` being the `zpopmin`/`spop`
command on the prefixed set key with count 500 as issued through `rr` with
no callback; `execP` executes the per-round deletion pipelines.  The
returned value collects, per pop round, the commands queued into that
round's pipeline (`rpipemulti` over the `del` descriptors); `none` means
the fuel ran out.  Source:
```
let _keys
const command = is_sorted ? 'zpopmin' : 'spop'
while (true) {
    _keys = await this.rr(command, keys_set, 500)
    if (!_keys || !Array.isArray(_keys) || !_keys.length) break
    if (is_sorted) _keys = _keys.filter((x, y) => !(y % 2))
    await this.rpipemulti(_keys.map((_key) => ['del', ptn ? ptn.replace('*', _key) : _key]))
}
``` -/
def rdel_from_set (stringify : BArg → String) (pfx : String)
    (direct : Nat → QCmd → BArg)
    (execP : String → List (Option QCmd) → ExecR)
    (keys_set : String) (is_sorted : Bool) (ptn : Option String) :
    Nat → Nat → Option (List (List (Option QCmd)))
  | 0, _ => none
  | fuel + 1, n =>
    let command := if is_sorted then "zpopmin" else "spop"
    match direct n (redis_call stringify pfx command (rpfx pfx keys_set)
        [BArg.num 500]) with
    | BArg.arr ks =>
      if ks.isEmpty then some []
      else
        let ks := if is_sorted then evenIdxs ks else ks
        let run := rpipemulti stringify pfx execP
          (ks.map (fun k => [BArg.str "del", substPtn ptn k])) none none
        (rdel_from_set stringify pfx direct execP keys_set is_sorted ptn
          fuel (n + 1)).map (fun bs => run.queued :: bs)
    | _ => some []

/-- C9: draining a sorted collection (`is_sorted = true`): each pop round
requests up to 500 elements via `zpopmin`; the alternating member/score
payload has every second element (the scores) discarded, so the round's
deletion pipeline is built from the member names only (with the optional
rename-pattern substitution); the loop stops — queuing no deletion
pipeline at all — when a pop round returns empty. -/
theorem rdel_from_set_sorted_members_only (stringify : BArg → String)
    (pfx : String) (direct : Nat → QCmd → BArg)
    (execP : String → List (Option QCmd) → ExecR)
    (keys_set : String) (ptn : Option String) (fuel n : Nat)
    (ms ss : List String)
    (h : direct n (redis_call stringify pfx "zpopmin" (rpfx pfx keys_set)
        [BArg.num 500])
      = BArg.arr (interleave (ms.map BArg.str) (ss.map BArg.str)))
    (hlen : ms.length = ss.length) :
    rdel_from_set stringify pfx direct execP keys_set true ptn (fuel + 1) n
      = if ms.isEmpty then some []
        else (rdel_from_set stringify pfx direct execP keys_set true ptn
            fuel (n + 1)).map
          (fun bs => (rpipemulti stringify pfx execP
            (ms.map (fun m => [BArg.str "del", substPtn ptn (BArg.str m)]))
            none none).queued :: bs) := by
  cases ms with
  | nil =>
    have hss : ss = [] := by
      cases ss with
      | nil => rfl
      | cons b bs => simp at hlen
    subst hss
    simp [rdel_from_set, h, interleave]
  | cons m ms' =>
    obtain ⟨s0, ss', rfl⟩ : ∃ s0 ss', ss = s0 :: ss' := by
      cases ss with
      | nil => simp at hlen
      | cons s0 ss' => exact ⟨s0, ss', rfl⟩
    have hev : evenIdxs (interleave ((m :: ms').map BArg.str)
        ((s0 :: ss').map BArg.str)) = (m :: ms').map BArg.str :=
      evenIdxs_interleave _ _ (by simp [List.length_map] at hlen ⊢; omega)
    have hne : (interleave ((m :: ms').map BArg.str)
        ((s0 :: ss').map BArg.str)).isEmpty = false := by
      simp [interleave]
    simp only [rdel_from_set, h, hne, if_true, hev]
    simp [List.map_map, Function.comp_def]

/-- C9 witness: a sorted set popped as `['a','1','b','2','c','3']` in
round one and empty in round two: exactly one deletion pipeline is
queued, for the member names `a`, `b`, `c` only — never for the scores. -/
theorem rdel_from_set_sorted_members_only_witness :
    rdel_from_set (fun _ => "") "p:"
      (fun n _ => if n = 0 then BArg.arr [BArg.str "a", BArg.str "1",
        BArg.str "b", BArg.str "2", BArg.str "c", BArg.str "3"]
        else BArg.arr [])
      (fun _ _ => ExecR.notArr BArg.null) "sset" true none 2 0
      = some [(rpipemulti (fun _ => "") "p:"
          (fun _ _ => ExecR.notArr BArg.null)
          [[BArg.str "del", BArg.str "a"], [BArg.str "del", BArg.str "b"],
           [BArg.str "del", BArg.str "c"]] none none).queued] := by
  have h1 := rdel_from_set_sorted_members_only (fun _ => "") "p:"
    (fun n _ => if n = 0 then BArg.arr [BArg.str "a", BArg.str "1",
      BArg.str "b", BArg.str "2", BArg.str "c", BArg.str "3"]
      else BArg.arr [])
    (fun _ _ => ExecR.notArr BArg.null) "sset" none 1 0
    ["a", "b", "c"] ["1", "2", "3"] rfl rfl
  have h2 := rdel_from_set_sorted_members_only (fun _ => "") "p:"
    (fun n _ => if n = 0 then BArg.arr [BArg.str "a", BArg.str "1",
      BArg.str "b", BArg.str "2", BArg.str "c", BArg.str "3"]
      else BArg.arr [])
    (fun _ _ => ExecR.notArr BArg.null) "sset" none 0 1 [] [] rfl rfl
  simp only [List.isEmpty_cons, List.isEmpty_nil, if_true, if_false] at h1 h2
  rw [h1, h2]
  simp [substPtn]

end RedisUtil
